import Mathlib

/-!
Verification development for the get-linked-data crawler.

The crawler (crawler.go, richest variant) loads a CSV of seed URLs,
deduplicates them, derives an allowed-domain list, visits every URL with a
colly collector, and partitions outcomes into scraped data (per matched
element, optionally transformed by a jq sub-query) and failed request URLs.

External collaborators (Go standard library encoding json, the gojq query
engine, the colly fetch layer, the file system) are modelled explicitly:
  * encoding json Unmarshal into a map of string to any is modelled by a
    JSON value type with an executable parser (numbers are kept as their
    source lexeme instead of being round-tripped through float64, since no
    verified property depends on number formatting; object fields are kept
    key-sorted, matching the sorted-key output of Marshal on a Go map, with
    a later duplicate key winning as in Go);
  * gojq is modelled on the fragment exercised by the program: the identity
    filter, the empty generator, and dotted field-access paths, with the
    iterator convention that a produced value may itself be an error value;
  * the colly fetch layer is abstracted as a per-URL outcome (a final URL
    after redirects plus either a successful response carrying the texts of
    the selector-matched elements in document order, or a request error);
    the collector skips a URL it has already visited, and its asynchronous
    callback execution is linearised in visit order (each append is atomic
    in the source, so the per-URL counting properties are unaffected);
  * the file system and CSV reader are abstracted as parameters, with a
    concrete unquoted-field CSV reader supplied for witnesses.
-/

/-- A JSON value as decoded by Go encoding json into map of string to any.
Numbers keep their source lexeme; object field lists are kept sorted by key
(the canonical form matching sorted-key marshalling of a Go map). -/
inductive Json where
  | null : Json
  | bool (b : Bool) : Json
  | num (raw : String) : Json
  | str (s : String) : Json
  | arr (elems : List Json) : Json
  | obj (fields : List (String × Json)) : Json

/-- Json whitespace skipping, as in the Go JSON scanner. -/
def skipWS : List Char → List Char
  | ' ' :: rest => skipWS rest
  | '\t' :: rest => skipWS rest
  | '\n' :: rest => skipWS rest
  | '\r' :: rest => skipWS rest
  | cs => cs

/-- Value of one hexadecimal digit. -/
def hexVal (c : Char) : Option Nat :=
  let n := c.toNat
  if 48 ≤ n ∧ n ≤ 57 then some (n - 48)
  else if 97 ≤ n ∧ n ≤ 102 then some (n - 87)
  else if 65 ≤ n ∧ n ≤ 70 then some (n - 55)
  else none

/-- Four hexadecimal digits. -/
def parse4Hex : List Char → Option (Nat × List Char)
  | a :: b :: c :: d :: rest => do
    let va ← hexVal a
    let vb ← hexVal b
    let vc ← hexVal c
    let vd ← hexVal d
    some (((va * 16 + vb) * 16 + vc) * 16 + vd, rest)
  | _ => none

/-- Unicode replacement character, used by Go for unpaired surrogates. -/
def replacementChar : Char := Char.ofNat 0xFFFD

/-- Decode the four hex digits after a backslash-u escape, pairing
surrogates as the Go JSON decoder does. -/
def decodeUnicodeEscape (cs : List Char) : Option (Char × List Char) :=
  match parse4Hex cs with
  | none => none
  | some (n, rest) =>
    if 0xD800 ≤ n ∧ n ≤ 0xDBFF then
      match rest with
      | '\\' :: 'u' :: rest2 =>
        match parse4Hex rest2 with
        | some (m, rest3) =>
          if 0xDC00 ≤ m ∧ m ≤ 0xDFFF then
            some (Char.ofNat (65536 + 1024 * (n - 55296) + (m - 56320)), rest3)
          else some (replacementChar, rest)
        | none => some (replacementChar, rest)
      | _ => some (replacementChar, rest)
    else if 0xDC00 ≤ n ∧ n ≤ 0xDFFF then some (replacementChar, rest)
    else some (Char.ofNat n, rest)

/-- Single-character string escapes of JSON. -/
def escChar : Char → Option Char
  | 'n' => some (Char.ofNat 10)
  | 't' => some (Char.ofNat 9)
  | 'r' => some (Char.ofNat 13)
  | 'b' => some (Char.ofNat 8)
  | 'f' => some (Char.ofNat 12)
  | '"' => some '"'
  | '\\' => some '\\'
  | '/' => some '/'
  | _ => none

/-- Body of a JSON string, positioned after the opening quote; returns the
decoded string and the input after the closing quote. -/
def parseStringBody : Nat → List Char → Option (String × List Char)
  | 0, _ => none
  | _ + 1, [] => none
  | fuel + 1, c :: rest =>
    if c == '"' then some ("", rest)
    else if c == '\\' then
      match rest with
      | [] => none
      | e :: rest2 =>
        if e == 'u' then
          match decodeUnicodeEscape rest2 with
          | none => none
          | some (ch, rest3) =>
            match parseStringBody fuel rest3 with
            | none => none
            | some (s, r) => some (String.singleton ch ++ s, r)
        else
          match escChar e with
          | none => none
          | some ch =>
            match parseStringBody fuel rest2 with
            | none => none
            | some (s, r) => some (String.singleton ch ++ s, r)
    else if c.toNat < 32 then none
    else
      match parseStringBody fuel rest with
      | none => none
      | some (s, r) => some (String.singleton c ++ s, r)

/-- Longest prefix of decimal digits. -/
def takeDigits : List Char → List Char × List Char
  | [] => ([], [])
  | c :: rest =>
    if c.isDigit then
      let (ds, r) := takeDigits rest
      (c :: ds, r)
    else ([], c :: rest)

/-- Integer part of a JSON number: a single zero, or a nonzero digit
followed by digits. -/
def parseIntPart : List Char → Option (List Char × List Char)
  | [] => none
  | c :: rest =>
    if c == '0' then some ([c], rest)
    else if c.isDigit then
      let (ds, r) := takeDigits rest
      some (c :: ds, r)
    else none

/-- Optional fractional part; on a malformed fraction nothing is consumed
and the offending characters are left for the caller to reject. -/
def parseFracPart : List Char → List Char × List Char
  | '.' :: rest =>
    (match rest with
     | c :: _ =>
       if c.isDigit then
         let (ds, r) := takeDigits rest
         ('.' :: ds, r)
       else ([], '.' :: rest)
     | [] => ([], ['.']))
  | cs => ([], cs)

/-- Optional exponent part; on a malformed exponent nothing is consumed. -/
def parseExpPart : List Char → List Char × List Char
  | ch :: rest =>
    if ch == 'e' || ch == 'E' then
      match rest with
      | s :: rest2 =>
        if s == '+' || s == '-' then
          match rest2 with
          | d :: _ =>
            if d.isDigit then
              let (ds, r) := takeDigits rest2
              (ch :: s :: ds, r)
            else ([], ch :: rest)
          | [] => ([], ch :: rest)
        else if s.isDigit then
          let (ds, r) := takeDigits rest
          (ch :: ds, r)
        else ([], ch :: rest)
      | [] => ([], [ch])
    else ([], ch :: rest)
  | [] => ([], [])

/-- Lexeme of a JSON number. -/
def parseNumberLex (cs : List Char) : Option (String × List Char) :=
  let (sign, cs1) :=
    match cs with
    | '-' :: rest => (['-'], rest)
    | _ => ([], cs)
  match parseIntPart cs1 with
  | none => none
  | some (ip, cs2) =>
    let (fp, cs3) := parseFracPart cs2
    let (ep, cs4) := parseExpPart cs3
    some (String.mk (sign ++ ip ++ fp ++ ep), cs4)

/-- Insert a field parsed EARLIER in the text into the fields parsed after
it, keeping keys sorted; if the key is already bound the existing (textually
later) binding wins, matching last-write-wins of a Go map. -/
def objInsert (k : String) (v : Json) : List (String × Json) → List (String × Json)
  | [] => [(k, v)]
  | (k0, v0) :: rest =>
    if k == k0 then (k0, v0) :: rest
    else if decide (k < k0) then (k, v) :: (k0, v0) :: rest
    else (k0, v0) :: objInsert k v rest

mutual

/-- One JSON value; returns the value and the unconsumed input. -/
def parseVal : Nat → List Char → Option (Json × List Char)
  | 0, _ => none
  | fuel + 1, cs =>
    match skipWS cs with
    | [] => none
    | c :: rest =>
      if c == 'n' then
        match rest with
        | 'u' :: 'l' :: 'l' :: r => some (Json.null, r)
        | _ => none
      else if c == 't' then
        match rest with
        | 'r' :: 'u' :: 'e' :: r => some (Json.bool true, r)
        | _ => none
      else if c == 'f' then
        match rest with
        | 'a' :: 'l' :: 's' :: 'e' :: r => some (Json.bool false, r)
        | _ => none
      else if c == '"' then
        match parseStringBody (rest.length + 1) rest with
        | none => none
        | some (s, r) => some (Json.str s, r)
      else if c == '[' then
        match skipWS rest with
        | ']' :: r => some (Json.arr [], r)
        | cs2 =>
          match parseArrayItems fuel cs2 with
          | none => none
          | some (vs, r) => some (Json.arr vs, r)
      else if c == '{' then
        match skipWS rest with
        | '}' :: r => some (Json.obj [], r)
        | cs2 =>
          match parseObjItems fuel cs2 with
          | none => none
          | some (fs, r) => some (Json.obj fs, r)
      else if c == '-' || c.isDigit then
        match parseNumberLex (c :: rest) with
        | none => none
        | some (lex, r) => some (Json.num lex, r)
      else none

/-- One or more comma-separated array items followed by a closing bracket. -/
def parseArrayItems : Nat → List Char → Option (List Json × List Char)
  | 0, _ => none
  | fuel + 1, cs =>
    match parseVal fuel cs with
    | none => none
    | some (v, r1) =>
      match skipWS r1 with
      | ',' :: r2 =>
        match parseArrayItems fuel r2 with
        | none => none
        | some (vs, r3) => some (v :: vs, r3)
      | ']' :: r2 => some ([v], r2)
      | _ => none

/-- One or more comma-separated object members followed by a closing brace. -/
def parseObjItems : Nat → List Char → Option (List (String × Json) × List Char)
  | 0, _ => none
  | fuel + 1, cs =>
    match skipWS cs with
    | '"' :: rest =>
      match parseStringBody (rest.length + 1) rest with
      | none => none
      | some (k, r1) =>
        match skipWS r1 with
        | ':' :: r2 =>
          match parseVal fuel r2 with
          | none => none
          | some (v, r3) =>
            match skipWS r3 with
            | ',' :: r4 =>
              match parseObjItems fuel r4 with
              | none => none
              | some (fs, r5) => some (objInsert k v fs, r5)
            | '}' :: r4 => some ([(k, v)], r4)
            | _ => none
        | _ => none
    | _ => none

end

/-- Parse a whole JSON document, requiring only trailing whitespace after
the value, as Go Unmarshal does. -/
def parseJson (s : String) : Option Json :=
  match parseVal (4 * s.length + 16) s.data with
  | none => none
  | some (v, rest) =>
    match skipWS rest with
    | [] => some v
    | _ => none

/-- Lowercase hexadecimal digit. -/
def hexDigitChar (n : Nat) : Char :=
  if n < 10 then Char.ofNat (48 + n) else Char.ofNat (87 + n)

/-- A backslash-u escape of a code point below 0x10000, lowercase hex as
emitted by Go Marshal. -/
def escapeU (n : Nat) : String :=
  String.mk ['\\', 'u', hexDigitChar (n / 4096 % 16), hexDigitChar (n / 256 % 16),
    hexDigitChar (n / 16 % 16), hexDigitChar (n % 16)]

/-- Escaping of one character inside a marshalled JSON string; Go escapes
quotes, backslashes, control characters, the HTML-sensitive characters, and
the line and paragraph separators. -/
def escapeJsonChar (c : Char) : String :=
  if c == '"' then "\\\""
  else if c == '\\' then "\\\\"
  else if c == '\n' then "\\n"
  else if c == '\r' then "\\r"
  else if c == '\t' then "\\t"
  else if c == '<' || c == '>' || c == '&' then escapeU c.toNat
  else if c.toNat < 32 then escapeU c.toNat
  else if c.toNat == 8232 || c.toNat == 8233 then escapeU c.toNat
  else String.singleton c

/-- Marshalled form of a JSON string. -/
def marshalString (s : String) : String :=
  "\"" ++ String.join (s.data.map escapeJsonChar) ++ "\""

mutual

/-- Compact JSON serialization, as json Marshal produces for a value decoded
into map of string to any: no spaces, object keys in sorted order (the field
lists are kept sorted by construction). -/
def marshal : Json → String
  | Json.null => "null"
  | Json.bool true => "true"
  | Json.bool false => "false"
  | Json.num raw => raw
  | Json.str s => marshalString s
  | Json.arr elems => "[" ++ marshalList elems ++ "]"
  | Json.obj fields => "\x7b" ++ marshalFields fields ++ "\x7d"

/-- Comma-separated marshalled array elements. -/
def marshalList : List Json → String
  | [] => ""
  | [v] => marshal v
  | v :: rest => marshal v ++ "," ++ marshalList rest

/-- Comma-separated marshalled object members. -/
def marshalFields : List (String × Json) → String
  | [] => ""
  | [(k, v)] => marshalString k ++ ":" ++ marshal v
  | (k, v) :: rest => marshalString k ++ ":" ++ marshal v ++ "," ++ marshalFields rest

end

/-- Model of the gojq query engine on the fragment the program exercises:
the identity filter, the empty generator, and dotted field-access paths. -/
inductive JqQuery where
  | identity : JqQuery
  | emptyGen : JqQuery
  | path (fields : List String) : JqQuery
deriving DecidableEq

/-- Characters allowed inside a jq field identifier. -/
def isIdentChar (c : Char) : Bool :=
  c.isAlpha || c.isDigit || c == '_'

/-- Longest prefix of identifier characters. -/
def takeIdent : List Char → List Char × List Char
  | [] => ([], [])
  | c :: rest =>
    if isIdentChar c then
      let (ds, r) := takeIdent rest
      (c :: ds, r)
    else ([], c :: rest)

/-- Split the text after a leading dot into a dot-separated field path. -/
def splitPath : Nat → List Char → Option (List String)
  | 0, _ => none
  | fuel + 1, cs =>
    match cs with
    | [] => none
    | c :: _ =>
      if c.isAlpha || c == '_' then
        let (ident, r) := takeIdent cs
        match r with
        | [] => some [String.mk ident]
        | '.' :: r2 =>
          match splitPath fuel r2 with
          | none => none
          | some fs => some (String.mk ident :: fs)
        | _ => none
      else none

/-- gojq Parse on the modelled fragment. -/
def gojqParse (q : String) : Except String JqQuery :=
  if q = "." then .ok .identity
  else if q = "empty" then .ok .emptyGen
  else
    match q.data with
    | '.' :: rest =>
      match splitPath (rest.length + 1) rest with
      | some fs => .ok (.path fs)
      | none => .error ("gojq parse failed: " ++ q)
    | _ => .error ("gojq parse failed: " ++ q)

/-- One value of the gojq result iterator: either a produced value or an
error value, mirroring the val dot error convention of the Go iterator. -/
inductive JqRes where
  | val (v : Json) : JqRes
  | err (msg : String) : JqRes

/-- Look a field up in a (sorted, duplicate-free) field list. -/
def objGet : List (String × Json) → String → Option Json
  | [], _ => none
  | (k, v) :: rest, f => if k == f then some v else objGet rest f

/-- Field-path access, as gojq evaluates a dotted path: a missing field
yields null, indexing null yields null, indexing any other non-object is a
runtime error value. -/
def pathAccess : List String → Json → JqRes
  | [], v => .val v
  | f :: rest, Json.obj fields => pathAccess rest ((objGet fields f).getD Json.null)
  | _ :: rest, Json.null => pathAccess rest Json.null
  | f :: _, _ => .err ("expected an object but cannot index with: " ++ f)

/-- gojq Run on the modelled fragment: the full (finite) result sequence of
the query on the input value. -/
def jqRun : JqQuery → Json → List JqRes
  | .identity, v => [.val v]
  | .emptyGen, _ => []
  | .path fs, v => [pathAccess fs v]

/-- The error cases of jqSelect, one per fmt Errorf wrap in the source. -/
inductive JqSelectError where
  | notValidJSON (wrapped : String) : JqSelectError
  | parseFailed (wrapped : String) : JqSelectError
  | noFirstValue : JqSelectError
  | runFailed (wrapped : String) : JqSelectError
deriving DecidableEq

/-- Error text for input that is not valid JSON at all. -/
def invalidJsonMsg : String := "json: not a valid JSON value"

/-- Error text for valid JSON whose top level cannot unmarshal into a map. -/
def nonObjectMsg : String := "json: cannot unmarshal non-object value into map of string to any"

/-- Go json Unmarshal of a byte slice into a variable of type map of string
to any: invalid JSON fails, a top-level object yields its fields, a
top-level null SUCCEEDS leaving the map nil (modelled as the empty field
list), and any other top level is a type mismatch error. -/
def unmarshalMap (s : String) : Except String (List (String × Json)) :=
  match parseJson s with
  | none => .error invalidJsonMsg
  | some (Json.obj fields) => .ok fields
  | some Json.null => .ok []
  | some _ => .error nonObjectMsg

/-- jqSelect from crawler.go: empty query passes the element text through;
otherwise the text must unmarshal into a JSON object, the query must parse,
and only the first value of the result iterator is used - a missing first
value or an error first value fails, any later values are discarded, and a
proper first value is returned marshalled to compact JSON. -/
def jqSelect (selectedText : String) (query : String) : Except JqSelectError String :=
  if query = "" then .ok selectedText
  else
    match unmarshalMap selectedText with
    | .error e => .error (.notValidJSON e)
    | .ok jsonData =>
      match gojqParse query with
      | .error e => .error (.parseFailed e)
      | .ok jq =>
        match jqRun jq (Json.obj jsonData) with
        | [] => .error .noFirstValue
        | .err e :: _ => .error (.runFailed e)
        | .val v :: _ => .ok (marshal v)

/-- The Crawler record of crawler.go.  The embedded colly Collector is
represented by the one piece of its state the program writes, the
AllowedDomains list; the remaining collector configuration (user agent,
depth, async mode, limits, timeout, transport) carries no state the claims
mention. -/
structure Crawler where
  elementSelector : String
  jqSelector : String
  URLs : List String
  FailedRequestURLs : List String
  ScrapedData : List String
  allowedDomains : List String
deriving DecidableEq

/-- NewCrawler: selectors stored, every collection empty; the wait time and
parallelism only configure the collector limit rule. -/
def newCrawler (elementSelector jqSelector : String) (_waitTime _parallelism : Nat) : Crawler :=
  { elementSelector := elementSelector
    jqSelector := jqSelector
    URLs := []
    FailedRequestURLs := []
    ScrapedData := []
    allowedDomains := [] }

/-- The three error wraps of LoadUrlFile. -/
inductive LoadError where
  | fileStat (wrapped : String) : LoadError
  | openFile (wrapped : String) : LoadError
  | csvReader (wrapped : String) : LoadError
deriving DecidableEq

/-- The record loop of LoadUrlFile: for each row with at least one column,
append column zero to the URL list unless the bucket has seen it. -/
def loadLoop (bucket : List String) (c : Crawler) : List (List String) → Crawler
  | [] => c
  | record :: rest =>
    match record with
    | [] => loadLoop bucket c rest
    | url :: _ =>
      if url ∈ bucket then loadLoop bucket c rest
      else loadLoop (url :: bucket) { c with URLs := c.URLs ++ [url] } rest

/-- LoadUrlFile.  The file system is abstracted as the optional file
contents (none when the stat fails) and the CSV reader as a function from
the configured comma character and the contents to records.  The source
configures the reader with rune of delimiter index zero and performs no
delimiter validation whatsoever: indexing an empty delimiter panics, which
the model renders as the outer none. -/
def loadUrlFile (readAll : Char → String → Except String (List (List String)))
    (contents : Option String) (delimiter : String) (c : Crawler) :
    Option (Except LoadError Crawler) :=
  match contents with
  | none => some (.error (.fileStat "file does not exist"))
  | some text =>
    match delimiter.data with
    | [] => none
    | d :: _ =>
      match readAll d text with
      | .error e => some (.error (.csvReader e))
      | .ok allRecords => some (.ok (loadLoop [] c allRecords))

/-- Split a character list at every occurrence of a separator. -/
def splitOnChar (sep : Char) : List Char → List (List Char)
  | [] => [[]]
  | c :: rest =>
    match splitOnChar sep rest with
    | [] => if c == sep then [[], []] else [[c]]
    | f :: fs => if c == sep then [] :: f :: fs else (c :: f) :: fs

/-- A concrete CSV reader on the unquoted fragment of encoding csv: records
are newline-separated, blank lines are skipped, fields split at the comma
character. -/
def simpleCsvReadAll (comma : Char) (text : String) : Except String (List (List String)) :=
  .ok (((splitOnChar '\n' text.data).filter (fun line => line != [])).map
    (fun line => (splitOnChar comma line).map String.mk))

/-- The dedup loop of DeduplicateURLs (and of LoadUrlFile): keep a URL only
when the bucket has not seen it yet. -/
def dedupGo : List String → List String → List String
  | _, [] => []
  | bucket, u :: rest =>
    if u ∈ bucket then dedupGo bucket rest
    else u :: dedupGo (u :: bucket) rest

/-- DeduplicateURLs: replace the URL list with its first-occurrence
deduplication. -/
def deduplicateURLs (c : Crawler) : Crawler :=
  { c with URLs := dedupGo [] c.URLs }

/-- The two error wraps of SetAllowedDomains. -/
inductive ScopeError where
  | urlParse (wrapped : String) : ScopeError
  | domainParse (wrapped : String) : ScopeError
deriving DecidableEq

/-- The loop of SetAllowedDomains: per URL obtain the hostname (url Parse
followed by Hostname, abstracted as parseHost) and its registrable domain
(publicsuffix Domain, abstracted as psDomain), return the wrapped error of
the first failing step, and otherwise append first the domain and then the
hostname to the accumulator, each unless the bucket has seen it. -/
def domainLoop (parseHost psDomain : String → Except String String) :
    List String → List String → List String → Except ScopeError (List String)
  | [], _, acc => .ok acc
  | rawURL :: rest, bucket, acc =>
    match parseHost rawURL with
    | .error e => .error (.urlParse e)
    | .ok hostname =>
      match psDomain hostname with
      | .error e => .error (.domainParse e)
      | .ok domain =>
        let bucket1 := if domain ∈ bucket then bucket else domain :: bucket
        let acc1 := if domain ∈ bucket then acc else acc ++ [domain]
        let bucket2 := if hostname ∈ bucket1 then bucket1 else hostname :: bucket1
        let acc2 := if hostname ∈ bucket1 then acc1 else acc1 ++ [hostname]
        domainLoop parseHost psDomain rest bucket2 acc2

/-- SetAllowedDomains: on the first failure the error is returned before
the collector field is assigned, so the crawler is returned unchanged; only
after the whole URL list is processed is the allowed-domain list
installed. -/
def setAllowedDomains (parseHost psDomain : String → Except String String) (c : Crawler) :
    Crawler × Option ScopeError :=
  match domainLoop parseHost psDomain c.URLs [] [] with
  | .error e => (c, some e)
  | .ok ds => ({ c with allowedDomains := ds }, none)

/-- Result of one dispatched request in the abstracted fetch layer: either
a response whose document matched the configured selector on the listed
element texts (in document order), or a request error. -/
inductive FetchResult where
  | response (elements : List String) : FetchResult
  | failed (err : String) : FetchResult
deriving DecidableEq

/-- Outcome of fetching one seed URL: the address the request ended at
after any redirects inside the fetch layer, and the result. -/
structure FetchOutcome where
  finalURL : String
  result : FetchResult
deriving DecidableEq

/-- Whether the outcome triggers the OnError callback. -/
def FetchOutcome.failedB (o : FetchOutcome) : Bool :=
  match o.result with
  | .failed _ => true
  | .response _ => false

/-- Per-element handling of a successful response, as registered by
ExecuteScrape: the OnXML callback appends the raw element text, the OnHTML
callback runs jqSelect and appends only on success (an extraction error is
logged and that element skipped). -/
def processElements (scrapeXML : Bool) (jqSelector : String) (elements : List String) : List String :=
  if scrapeXML then elements
  else elements.filterMap (fun t => (jqSelect t jqSelector).toOption)

/-- The visit loop of ExecuteScrape over the abstracted collector.  The
collector skips a URL it has already visited; otherwise OnRequest tags the
request context with its original URL, and then either the response
callbacks append the processed element texts or the OnError callback
appends the ORIGINAL URL from the request context (never the redirected
final URL) to the failed list, exactly once.  The asynchronous callbacks
are linearised in visit order. -/
def visitLoop (outcome : String → FetchOutcome) (scrapeXML : Bool) :
    List String → Crawler → List String → Crawler
  | _, c, [] => c
  | visited, c, url :: rest =>
    if url ∈ visited then visitLoop outcome scrapeXML visited c rest
    else
      let originalURL := url
      match (outcome url).result with
      | .response elements =>
        visitLoop outcome scrapeXML (url :: visited)
          { c with ScrapedData := c.ScrapedData ++ processElements scrapeXML c.jqSelector elements }
          rest
      | .failed _ =>
        visitLoop outcome scrapeXML (url :: visited)
          { c with FailedRequestURLs := c.FailedRequestURLs ++ [originalURL] } rest

/-- ExecuteScrape: the scraped-data output is re-initialised to empty (the
failed list is NOT), then every stored URL is sent for a visit and the
engine blocks until the collection drains. -/
def executeScrape (outcome : String → FetchOutcome) (scrapeXML : Bool) (c : Crawler) : Crawler :=
  visitLoop outcome scrapeXML [] { c with ScrapedData := [] } c.URLs

/-- The scraped records contributed by one URL. -/
def perURL (outcome : String → FetchOutcome) (scrapeXML : Bool) (jqSelector : String)
    (u : String) : List String :=
  match (outcome u).result with
  | .response elements => processElements scrapeXML jqSelector elements
  | .failed _ => []

/-- Whether a JSON value is an object. -/
def Json.isObjB : Json → Bool
  | .obj _ => true
  | _ => false

/-- Whether a JSON value is null. -/
def Json.isNullB : Json → Bool
  | .null => true
  | _ => false

/-- Claim C4: with the empty sub-query, jqSelect returns the element text
unchanged and never fails, for every element text. -/
theorem jqSelect_empty_query_passthrough (t : String) : jqSelect t "" = .ok t := by
  simp [jqSelect]

/-- Claim C5: for every non-empty sub-query, jqSelect on element text that
is not valid JSON always fails with the JSON-parse error and never returns
a value. -/
theorem jqSelect_invalid_json_always_fails (text query : String)
    (hq : query ≠ "") (hbad : parseJson text = none) :
    jqSelect text query = .error (.notValidJSON invalidJsonMsg) := by
  simp [jqSelect, hq, unmarshalMap, hbad]

/-- Witness for claim C5 at the concrete scenario text. -/
theorem jqSelect_invalid_json_always_fails_witness :
    (".name" ≠ "") ∧ parseJson "not json" = none
    ∧ jqSelect "not json" ".name" = .error (.notValidJSON invalidJsonMsg) :=
  ⟨by decide, rfl, jqSelect_invalid_json_always_fails "not json" ".name" (by decide) rfl⟩

/-- Claim C3: for element text unmarshalling to a JSON object and a
well-formed non-empty sub-query, jqSelect takes only the first value of the
result sequence (discarding the rest), fails when the sequence is empty,
propagates an error first value, and otherwise returns the first value
serialized as compact JSON; concretely the name field of the widget object
extracts to the JSON string widget. -/
theorem jqSelect_first_value_semantics (text query : String)
    (fields : List (String × Json)) (q : JqQuery)
    (hq : query ≠ "")
    (hobj : parseJson text = some (Json.obj fields))
    (hp : gojqParse query = .ok q) :
    (jqRun q (Json.obj fields) = [] → jqSelect text query = .error .noFirstValue)
    ∧ (∀ e rest, jqRun q (Json.obj fields) = JqRes.err e :: rest →
        jqSelect text query = .error (.runFailed e))
    ∧ (∀ v rest, jqRun q (Json.obj fields) = JqRes.val v :: rest →
        jqSelect text query = .ok (marshal v))
    ∧ jqSelect "\x7b\"name\":\"widget\"\x7d" ".name" = .ok "\"widget\"" := by
  refine ⟨?_, ?_, ?_, rfl⟩ <;> intros <;>
    simp [jqSelect, hq, unmarshalMap, hobj, hp, *]

/-- Witness for claim C3 at the concrete scenario of the spec. -/
theorem jqSelect_first_value_semantics_witness :
    (".name" ≠ "")
    ∧ parseJson "\x7b\"name\":\"widget\"\x7d" = some (Json.obj [("name", Json.str "widget")])
    ∧ gojqParse ".name" = .ok (JqQuery.path ["name"])
    ∧ jqSelect "\x7b\"name\":\"widget\"\x7d" ".name" = .ok (marshal (Json.str "widget")) :=
  ⟨by decide, rfl, rfl,
    (jqSelect_first_value_semantics "\x7b\"name\":\"widget\"\x7d" ".name"
        [("name", Json.str "widget")] (JqQuery.path ["name"])
        (by decide) rfl rfl).2.2.1 (Json.str "widget") [] rfl⟩

/-- Counterexample to claim C10 as stated: a top-level JSON null is not an
object, yet jqSelect does not fail on it - Go Unmarshal of null into a map
succeeds leaving the map nil, and the query then runs against the empty
object, so the name query on the text null returns the value null. -/
theorem jqSelect_null_toplevel_cex :
    parseJson "null" = some Json.null
    ∧ Json.isObjB Json.null = false
    ∧ jqSelect "null" ".name" = .ok "null" :=
  ⟨rfl, rfl, rfl⟩

/-- Claim C10 (amended): for every non-empty sub-query, element text whose
top-level JSON value is neither an object nor null - in particular arrays,
strings, numbers and booleans - is rejected with the
not-a-valid-JSON-object error. -/
theorem jqSelect_nonObject_rejected (text query : String) (v : Json)
    (hq : query ≠ "") (hv : parseJson text = some v)
    (hobj : v.isObjB = false) (hnull : v.isNullB = false) :
    jqSelect text query = .error (.notValidJSON nonObjectMsg) := by
  cases v with
  | null => simp [Json.isNullB] at hnull
  | obj fields => simp [Json.isObjB] at hobj
  | bool b => simp [jqSelect, hq, unmarshalMap, hv]
  | num raw => simp [jqSelect, hq, unmarshalMap, hv]
  | str s => simp [jqSelect, hq, unmarshalMap, hv]
  | arr elems => simp [jqSelect, hq, unmarshalMap, hv]

/-- Witness for claim C10 at the JSON-LD array input. -/
theorem jqSelect_nonObject_rejected_witness :
    parseJson "[\x7b\"name\":\"widget\"\x7d]"
      = some (Json.arr [Json.obj [("name", Json.str "widget")]])
    ∧ jqSelect "[\x7b\"name\":\"widget\"\x7d]" ".name"
      = .error (.notValidJSON nonObjectMsg) :=
  ⟨rfl, jqSelect_nonObject_rejected "[\x7b\"name\":\"widget\"\x7d]" ".name"
      (Json.arr [Json.obj [("name", Json.str "widget")]]) (by decide) rfl rfl rfl⟩

/-- Membership in the dedup loop output: the elements of the input not yet
seen in the bucket. -/
theorem mem_dedupGo (x : String) (l : List String) :
    ∀ bucket, x ∈ dedupGo bucket l ↔ (x ∈ l ∧ x ∉ bucket) := by
  induction l with
  | nil => intro bucket; simp [dedupGo]
  | cons u rest ih =>
    intro bucket
    by_cases h : u ∈ bucket
    · simp only [dedupGo, h, ite_true, List.mem_cons, ih]
      constructor
      · rintro ⟨hx, hb⟩
        exact ⟨Or.inr hx, hb⟩
      · rintro ⟨hx | hx, hb⟩
        · exact absurd (hx.symm ▸ h) hb
        · exact ⟨hx, hb⟩
    · simp only [dedupGo, h, ite_false, List.mem_cons, ih]
      constructor
      · rintro (rfl | ⟨hx, hb⟩)
        · exact ⟨Or.inl rfl, h⟩
        · exact ⟨Or.inr hx, fun hc => hb (Or.inr hc)⟩
      · rintro ⟨hx | hx, hb⟩
        · exact Or.inl hx
        · by_cases hxu : x = u
          · exact Or.inl hxu
          · exact Or.inr ⟨hx, fun hc => hc.elim hxu hb⟩

/-- The dedup loop output is a subsequence of its input. -/
theorem dedupGo_sublist (l : List String) : ∀ bucket, (dedupGo bucket l).Sublist l := by
  induction l with
  | nil => intro bucket; simp [dedupGo]
  | cons u rest ih =>
    intro bucket
    by_cases h : u ∈ bucket
    · simp only [dedupGo, h, ite_true]
      exact (ih bucket).cons u
    · simp only [dedupGo, h, ite_false]
      exact (ih (u :: bucket)).cons₂ u

/-- The dedup loop output has no duplicates. -/
theorem dedupGo_nodup (l : List String) : ∀ bucket, (dedupGo bucket l).Nodup := by
  induction l with
  | nil => intro bucket; simp [dedupGo]
  | cons u rest ih =>
    intro bucket
    by_cases h : u ∈ bucket
    · simpa only [dedupGo, h, ite_true] using ih bucket
    · simp only [dedupGo, h, ite_false, List.nodup_cons]
      refine ⟨fun hmem => ?_, ih (u :: bucket)⟩
      exact ((mem_dedupGo u rest (u :: bucket)).mp hmem).2 (List.mem_cons_self u bucket)

/-- The dedup loop is the identity on a duplicate-free input disjoint from
the bucket. -/
theorem dedupGo_eq_self (l : List String) :
    ∀ bucket, l.Nodup → (∀ x ∈ l, x ∉ bucket) → dedupGo bucket l = l := by
  induction l with
  | nil => intro bucket _ _; rfl
  | cons u rest ih =>
    intro bucket hnd hdisj
    have hu : u ∉ bucket := hdisj u (List.mem_cons_self u rest)
    simp only [dedupGo, hu, ite_false]
    congr 1
    refine ih (u :: bucket) (List.Nodup.of_cons hnd) ?_
    intro x hx hxc
    rcases List.mem_cons.mp hxc with heq | hxb
    · exact (List.nodup_cons.mp hnd).1 (heq ▸ hx)
    · exact hdisj x (List.mem_cons_of_mem _ hx) hxb

/-- The dedup loop depends on the bucket only through membership. -/
theorem dedupGo_congr (l : List String) :
    ∀ b₁ b₂, (∀ x, x ∈ b₁ ↔ x ∈ b₂) → dedupGo b₁ l = dedupGo b₂ l := by
  induction l with
  | nil => intro b₁ b₂ _; rfl
  | cons u rest ih =>
    intro b₁ b₂ hiff
    by_cases h : u ∈ b₁
    · have h2 : u ∈ b₂ := (hiff u).mp h
      simp only [dedupGo, h, h2, ite_true]
      exact ih b₁ b₂ hiff
    · have h2 : u ∉ b₂ := fun hc => h ((hiff u).mpr hc)
      simp only [dedupGo, h, h2, ite_false]
      congr 1
      refine ih _ _ fun x => ?_
      simp only [List.mem_cons]
      exact or_congr Iff.rfl (hiff x)

/-- Seeding the bucket with one element is the same as removing its later
occurrences from the input first: the first-occurrence law of the loop. -/
theorem dedupGo_cons_filter (l : List String) :
    ∀ (u : String) (bucket : List String),
      dedupGo (u :: bucket) l = dedupGo bucket (l.filter (fun y => y != u)) := by
  induction l with
  | nil => intro u bucket; rfl
  | cons v rest ih =>
    intro u bucket
    rcases eq_or_ne v u with rfl | hvu
    · have h1 : v ∈ v :: bucket := List.mem_cons_self v bucket
      simp only [List.filter_cons, bne_self_eq_false, Bool.false_eq_true, ite_false,
        dedupGo, h1, ite_true]
      exact ih v bucket
    · have hf : (v != u) = true := bne_iff_ne.mpr hvu
      by_cases hvb : v ∈ bucket
      · have h1 : v ∈ u :: bucket := List.mem_cons_of_mem _ hvb
        simp only [List.filter_cons, hf, ite_true, dedupGo, h1, hvb]
        exact ih u bucket
      · have h1 : v ∉ u :: bucket := by
          intro hc
          rcases List.mem_cons.mp hc with h2 | h2
          · exact hvu h2
          · exact hvb h2
        simp only [List.filter_cons, hf, ite_true, dedupGo, h1, hvb, ite_false]
        congr 1
        calc dedupGo (v :: u :: bucket) rest
            = dedupGo (u :: v :: bucket) rest := by
              refine dedupGo_congr rest _ _ fun x => ?_
              simp only [List.mem_cons]
              tauto
          _ = dedupGo (v :: bucket) (rest.filter (fun y => y != u)) := ih u (v :: bucket)

/-- Claim C6: DeduplicateURLs is idempotent, and its output preserves the
order of each URL first occurrence: it is a duplicate-free subsequence of
the input with the same members, and the underlying loop satisfies the
first-occurrence recursion (the head stays first and its later duplicates
are discarded before the rest is deduplicated). -/
theorem deduplicateURLs_idempotent_order (c : Crawler) :
    deduplicateURLs (deduplicateURLs c) = deduplicateURLs c
    ∧ (deduplicateURLs c).URLs.Sublist c.URLs
    ∧ (deduplicateURLs c).URLs.Nodup
    ∧ (∀ x, x ∈ (deduplicateURLs c).URLs ↔ x ∈ c.URLs)
    ∧ (∀ (x : String) (rest : List String),
        dedupGo [] (x :: rest) = x :: dedupGo [] (rest.filter (fun y => y != x))) := by
  obtain ⟨es, jqs, urls, fr, sd, ad⟩ := c
  refine ⟨?_, ?_, ?_, ?_, ?_⟩
  · simp only [deduplicateURLs, Crawler.mk.injEq, true_and, and_true]
    exact dedupGo_eq_self _ [] (dedupGo_nodup urls []) (fun x _ h => List.not_mem_nil x h)
  · exact dedupGo_sublist urls []
  · exact dedupGo_nodup urls []
  · intro x
    simp [deduplicateURLs, mem_dedupGo]
  · intro x rest
    have h0 : x ∉ ([] : List String) := List.not_mem_nil x
    simp only [dedupGo, h0, ite_false]
    congr 1
    exact dedupGo_cons_filter rest x []

/-- The error the scoping loop produces at one URL, when it produces one. -/
def scopeErrorAt (parseHost psDomain : String → Except String String) (u : String) :
    Option ScopeError :=
  match parseHost u with
  | .error e => some (.urlParse e)
  | .ok hostname =>
    match psDomain hostname with
    | .error e => some (.domainParse e)
    | .ok _ => none

/-- The error at the first URL of the list that fails URL parsing or
registrable-domain parsing, if any. -/
def firstScopeError (parseHost psDomain : String → Except String String) :
    List String → Option ScopeError
  | [] => none
  | u :: rest =>
    match scopeErrorAt parseHost psDomain u with
    | some e => some e
    | none => firstScopeError parseHost psDomain rest

/-- When some URL fails, the scoping loop stops with the error of the first
failing URL, whatever the bucket and accumulator hold. -/
theorem domainLoop_error (ph pd : String → Except String String) (l : List String) :
    ∀ bucket acc e, firstScopeError ph pd l = some e →
      domainLoop ph pd l bucket acc = .error e := by
  induction l with
  | nil => intro bucket acc e h; simp [firstScopeError] at h
  | cons u rest ih =>
    intro bucket acc e h
    cases hph : ph u with
    | error msg =>
      rw [firstScopeError] at h
      simp only [scopeErrorAt, hph] at h
      cases h
      simp [domainLoop, hph]
    | ok host =>
      cases hpd : pd host with
      | error msg =>
        rw [firstScopeError] at h
        simp only [scopeErrorAt, hph, hpd] at h
        cases h
        simp [domainLoop, hph, hpd]
      | ok dom =>
        rw [firstScopeError] at h
        simp only [scopeErrorAt, hph, hpd] at h
        simp only [domainLoop, hph, hpd]
        exact ih _ _ e h

/-- When no URL fails, the scoping loop succeeds, whatever the bucket and
accumulator hold. -/
theorem domainLoop_ok (ph pd : String → Except String String) (l : List String) :
    ∀ bucket acc, firstScopeError ph pd l = none →
      ∃ ds, domainLoop ph pd l bucket acc = .ok ds := by
  induction l with
  | nil => intro bucket acc _; exact ⟨acc, rfl⟩
  | cons u rest ih =>
    intro bucket acc h
    cases hph : ph u with
    | error msg =>
      rw [firstScopeError] at h
      simp [scopeErrorAt, hph] at h
    | ok host =>
      cases hpd : pd host with
      | error msg =>
        rw [firstScopeError] at h
        simp [scopeErrorAt, hph, hpd] at h
      | ok dom =>
        rw [firstScopeError] at h
        simp only [scopeErrorAt, hph, hpd] at h
        simp only [domainLoop, hph, hpd]
        exact ih _ _ h

/-- Each successfully processed URL grows the accumulator by at most two
entries (its registrable domain and its hostname, each deduplicated). -/
theorem domainLoop_ok_bound (ph pd : String → Except String String) (l : List String) :
    ∀ bucket acc ds, domainLoop ph pd l bucket acc = .ok ds →
      ds.length ≤ acc.length + 2 * l.length := by
  induction l with
  | nil =>
    intro bucket acc ds h
    simp only [domainLoop] at h
    cases h
    simp
  | cons u rest ih =>
    intro bucket acc ds h
    cases hph : ph u with
    | error msg => simp [domainLoop, hph] at h
    | ok host =>
      cases hpd : pd host with
      | error msg => simp [domainLoop, hph, hpd] at h
      | ok dom =>
        simp only [domainLoop, hph, hpd] at h
        by_cases h1 : dom ∈ bucket
        · simp only [h1, ite_true] at h
          by_cases h2 : host ∈ bucket
          · simp only [h2, ite_true] at h
            have := ih _ _ ds h
            simp only [List.length_cons]
            omega
          · simp only [h2, ite_false] at h
            have := ih _ _ ds h
            simp only [List.length_append, List.length_cons, List.length_nil] at this ⊢
            omega
        · simp only [h1, ite_false] at h
          by_cases h2 : host ∈ dom :: bucket
          · simp only [h2, ite_true] at h
            have := ih _ _ ds h
            simp only [List.length_append, List.length_cons, List.length_nil] at this ⊢
            omega
          · simp only [h2, ite_false] at h
            have := ih _ _ ds h
            simp only [List.length_append, List.length_cons, List.length_nil] at this ⊢
            omega

/-- Claim C7: deriving the allowed-domain set is all-or-nothing - if any
URL of the set fails URL parsing or registrable-domain parsing,
SetAllowedDomains returns the error wrapping the failure at the first such
URL and the crawler (in particular its collector allowed-domain list) is
returned unchanged, no partial allow-list being installed; it succeeds only
after the whole seed set is processed, and only then installs the list. -/
theorem setAllowedDomains_all_or_nothing (ph pd : String → Except String String) (c : Crawler) :
    (∀ e, firstScopeError ph pd c.URLs = some e →
      setAllowedDomains ph pd c = (c, some e))
    ∧ (firstScopeError ph pd c.URLs = none →
      ∃ ds, setAllowedDomains ph pd c = ({ c with allowedDomains := ds }, none)) := by
  constructor
  · intro e h
    have hd := domainLoop_error ph pd c.URLs [] [] e h
    simp [setAllowedDomains, hd]
  · intro h
    obtain ⟨ds, hds⟩ := domainLoop_ok ph pd c.URLs [] [] h
    exact ⟨ds, by simp [setAllowedDomains, hds]⟩

/-- Hostname extraction model failing on one specific URL, for witnesses. -/
def parseHostW : String → Except String String :=
  fun u => if u = "http://bad url" then .error "invalid character in host name" else .ok u

/-- Registrable-domain model that always succeeds, for witnesses. -/
def psDomainW : String → Except String String := fun h => .ok h

/-- A crawler whose second URL fails hostname parsing, for witnesses. -/
def scopeCrawlerW : Crawler :=
  { newCrawler "script" "" 2000 100 with
      URLs := ["http://ok.example/a", "http://bad url"]
      allowedDomains := ["stale.example"] }

/-- Witness for claim C7: the failing seed leaves the stale allow-list
untouched and surfaces the first failure. -/
theorem setAllowedDomains_all_or_nothing_witness :
    firstScopeError parseHostW psDomainW scopeCrawlerW.URLs
      = some (.urlParse "invalid character in host name")
    ∧ setAllowedDomains parseHostW psDomainW scopeCrawlerW
      = (scopeCrawlerW, some (.urlParse "invalid character in host name")) :=
  ⟨by decide, (setAllowedDomains_all_or_nothing parseHostW psDomainW scopeCrawlerW).1 _ (by decide)⟩

/-- Claim C9: on success the installed allowed-domain list has at most
twice as many entries as the URL set - each URL contributes at most one
hostname and one registrable domain, deduplicated. -/
theorem setAllowedDomains_size_bound (ph pd : String → Except String String) (c : Crawler)
    (h : (setAllowedDomains ph pd c).2 = none) :
    (setAllowedDomains ph pd c).1.allowedDomains.length ≤ 2 * c.URLs.length := by
  cases hd : domainLoop ph pd c.URLs [] [] with
  | error e =>
    rw [setAllowedDomains, hd] at h
    simp at h
  | ok ds =>
    rw [setAllowedDomains, hd]
    simpa using domainLoop_ok_bound ph pd c.URLs [] [] ds hd

/-- A crawler whose seeds all parse, for the C9 witness. -/
def scopeCrawlerOkW : Crawler :=
  { newCrawler "script" "" 2000 100 with
      URLs := ["http://www.ok.example/a", "http://www.ok.example/b"] }

/-- Witness for claim C9 at a concrete two-URL seed set. -/
theorem setAllowedDomains_size_bound_witness :
    (setAllowedDomains parseHostW psDomainW scopeCrawlerOkW).2 = none
    ∧ (setAllowedDomains parseHostW psDomainW scopeCrawlerOkW).1.allowedDomains.length
      ≤ 2 * scopeCrawlerOkW.URLs.length :=
  ⟨by decide, setAllowedDomains_size_bound parseHostW psDomainW scopeCrawlerOkW (by decide)⟩

/-- Counterexample to claim C8 as stated: with the two-character delimiter
the load neither fails with a format error nor crashes - it silently
parses the file with the FIRST delimiter character only and succeeds. -/
theorem loadUrlFile_two_char_delimiter_cex :
    loadUrlFile simpleCsvReadAll (some "uax\nvay") "ab" (newCrawler "script" "" 2000 100)
      = some (.ok { newCrawler "script" "" 2000 100 with URLs := ["u", "v"] }) := by
  rfl

/-- Claim C8 (amended): LoadUrlFile performs no delimiter-length
validation: when the file is readable, an empty delimiter crashes (the
index-zero access panics), and any longer delimiter behaves exactly as its
first character alone - no format error is ever raised about the
delimiter. -/
theorem loadUrlFile_no_delimiter_validation
    (readAll : Char → String → Except String (List (List String)))
    (contents : Option String) (c : Crawler) :
    (∀ text, loadUrlFile readAll (some text) "" c = none)
    ∧ (∀ (d : Char) (ds : List Char) (delim : String), delim.data = d :: ds →
        loadUrlFile readAll contents delim c
          = loadUrlFile readAll contents (String.mk [d]) c) := by
  constructor
  · intro text
    rfl
  · intro d ds delim h
    cases contents with
    | none => rfl
    | some text =>
      simp only [loadUrlFile, h]

/-- Witness for claim C8: the two-character delimiter loads exactly as its
first character does. -/
theorem loadUrlFile_no_delimiter_validation_witness :
    ("ab" : String).data = 'a' :: ['b']
    ∧ loadUrlFile simpleCsvReadAll (some "uax\nvay") "ab" (newCrawler "script" "" 2000 100)
      = loadUrlFile simpleCsvReadAll (some "uax\nvay") (String.mk ['a'])
          (newCrawler "script" "" 2000 100) :=
  ⟨rfl, (loadUrlFile_no_delimiter_validation simpleCsvReadAll (some "uax\nvay")
      (newCrawler "script" "" 2000 100)).2 'a' ['b'] "ab" rfl⟩

/-- Characterization of the visit loop started on fresh URLs: the failed
list grows by exactly the not-yet-visited URLs whose outcome is an error,
in visit order and in original form, and the scraped data grows by the
per-URL records of the successful responses. -/
theorem visitLoop_spec (outcome : String → FetchOutcome) (sx : Bool) (urls : List String) :
    ∀ (visited : List String) (c : Crawler), urls.Nodup → (∀ u ∈ urls, u ∉ visited) →
      visitLoop outcome sx visited c urls
        = { c with
            FailedRequestURLs :=
              c.FailedRequestURLs ++ urls.filter (fun u => (outcome u).failedB),
            ScrapedData :=
              c.ScrapedData ++ (urls.map (perURL outcome sx c.jqSelector)).join } := by
  induction urls with
  | nil =>
    intro visited c _ _
    simp [visitLoop]
  | cons u rest ih =>
    intro visited c hnd hdisj
    have hu : u ∉ visited := hdisj u (List.mem_cons_self u rest)
    have hnd2 : rest.Nodup := List.Nodup.of_cons hnd
    have hun : u ∉ rest := (List.nodup_cons.mp hnd).1
    have hdisj2 : ∀ v ∈ rest, v ∉ u :: visited := by
      intro v hv hc
      rcases List.mem_cons.mp hc with heq | h2
      · exact hun (heq ▸ hv)
      · exact hdisj v (List.mem_cons_of_mem _ hv) h2
    obtain ⟨es, jqs, urls0, fr, sd, ad⟩ := c
    cases hres : (outcome u).result with
    | response elements =>
      have hf : (outcome u).failedB = false := by simp [FetchOutcome.failedB, hres]
      simp only [visitLoop, hu, ite_false, hres]
      rw [ih (u :: visited) _ hnd2 hdisj2]
      simp [perURL, hres, hf, List.filter_cons, List.map_cons, List.join, List.append_assoc,
        Crawler.mk.injEq]
    | failed err =>
      have hf : (outcome u).failedB = true := by simp [FetchOutcome.failedB, hres]
      simp only [visitLoop, hu, ite_false, hres]
      rw [ih (u :: visited) _ hnd2 hdisj2]
      simp [perURL, hres, hf, List.filter_cons, List.map_cons, List.join, List.append_assoc,
        Crawler.mk.injEq]

/-- Claim C1: partition completeness of ExecuteScrape over a (deduplicated)
URL set with a fresh failed list: every input URL either contributed its
zero or more scraped records and has no failed entry (successful outcome),
or has exactly one failed entry, recorded in its original pre-redirect
form (error outcome); and every failed entry is an input URL, so no input
URL is absent from both outcomes. -/
theorem executeScrape_partition (outcome : String → FetchOutcome) (sx : Bool) (c : Crawler)
    (hfr : c.FailedRequestURLs = []) (hnd : c.URLs.Nodup) :
    (∀ u ∈ c.URLs,
      ((outcome u).failedB = true →
        (executeScrape outcome sx c).FailedRequestURLs.count u = 1)
      ∧ ((outcome u).failedB = false →
        (executeScrape outcome sx c).FailedRequestURLs.count u = 0))
    ∧ (∀ v ∈ (executeScrape outcome sx c).FailedRequestURLs, v ∈ c.URLs) := by
  have hspec := visitLoop_spec outcome sx c.URLs [] { c with ScrapedData := [] } hnd
      (fun u _ h => List.not_mem_nil u h)
  have hF : (executeScrape outcome sx c).FailedRequestURLs
      = c.URLs.filter (fun u => (outcome u).failedB) := by
    rw [executeScrape, hspec]
    simp [hfr]
  refine ⟨?_, ?_⟩
  · intro u hu
    refine ⟨fun hfail => ?_, fun hok => ?_⟩
    · rw [hF, List.count_filter (by simpa using hfail)]
      exact List.count_eq_one_of_mem hnd hu
    · rw [hF]
      refine List.count_eq_zero.mpr fun hc => ?_
      have := List.of_mem_filter hc
      rw [hok] at this
      exact Bool.false_ne_true this
  · intro v hv
    rw [hF] at hv
    exact List.mem_of_mem_filter hv

/-- One URL that times out behind a redirect and one that succeeds, for
the C1 witness. -/
def outcomeW : String → FetchOutcome :=
  fun u =>
    if u = "http://a.example/x" then
      { finalURL := "http://a.example/redirected", result := .failed "context deadline exceeded" }
    else { finalURL := u, result := .response ["rec"] }

/-- A two-URL crawler with a fresh failed list, for the C1 witness. -/
def crawlerW : Crawler :=
  { newCrawler "script" "" 2000 100 with
      URLs := ["http://a.example/x", "http://b.example/y"] }

/-- Witness for claim C1: the failing URL appears exactly once in the
failed list (in original form) and the succeeding URL not at all. -/
theorem executeScrape_partition_witness :
    crawlerW.FailedRequestURLs = []
    ∧ crawlerW.URLs.Nodup
    ∧ (executeScrape outcomeW false crawlerW).FailedRequestURLs.count "http://a.example/x" = 1
    ∧ (executeScrape outcomeW false crawlerW).FailedRequestURLs.count "http://b.example/y" = 0 :=
  ⟨rfl, by decide,
    ((executeScrape_partition outcomeW false crawlerW rfl (by decide)).1
      "http://a.example/x" (by decide)).1 rfl,
    ((executeScrape_partition outcomeW false crawlerW rfl (by decide)).1
      "http://b.example/y" (by decide)).2 rfl⟩

/-- The element text of the C2 scenario. -/
def objTextC2 : String := "\x7b\"name\":\"widget\"\x7d"

/-- An outcome whose every response matches one element carrying the C2
object text. -/
def outcomeC2 : String → FetchOutcome :=
  fun u => { finalURL := u, result := .response [objTextC2] }

/-- A one-URL crawler configured with a non-empty jq selector, for C2. -/
def crawlerC2 : Crawler :=
  { newCrawler "script" ".name" 2000 100 with URLs := ["http://a.example/x"] }

/-- Counterexample to claim C2 as stated: in XML content mode the scraped
record is the raw element text, even though the crawler has the non-empty
sub-query configured and the Extraction Pipeline on that text would
produce a different value - so the pipeline is NOT run before appending in
the tree-of-XML mode. -/
theorem executeScrape_xml_no_pipeline_cex :
    crawlerC2.jqSelector = ".name"
    ∧ (executeScrape outcomeC2 true crawlerC2).ScrapedData = [objTextC2]
    ∧ jqSelect objTextC2 crawlerC2.jqSelector = .ok "\"widget\""
    ∧ objTextC2 ≠ "\"widget\"" :=
  ⟨rfl, rfl, rfl, by decide⟩

/-- Claim C2 (amended): on a successful response the scraped records are,
in markup (tree-of-markup) mode, the per-element results of the Extraction
Pipeline on each matched element text (elements whose extraction fails are
skipped), while in tree-of-XML mode each matched element text is appended
raw, without the jq sub-query transform. -/
theorem executeScrape_mode_processing (outcome : String → FetchOutcome) (sx : Bool)
    (c : Crawler) (hnd : c.URLs.Nodup) :
    (executeScrape outcome sx c).ScrapedData
      = (c.URLs.map (fun u =>
          match (outcome u).result with
          | .response elements =>
            if sx then elements
            else elements.filterMap (fun t => (jqSelect t c.jqSelector).toOption)
          | .failed _ => [])).join := by
  have hspec := visitLoop_spec outcome sx c.URLs [] { c with ScrapedData := [] } hnd
      (fun u _ h => List.not_mem_nil u h)
  rw [executeScrape, hspec]
  simp only [List.nil_append]
  have hfun : perURL outcome sx c.jqSelector = fun u =>
      match (outcome u).result with
      | .response elements =>
        if sx then elements
        else elements.filterMap (fun t => (jqSelect t c.jqSelector).toOption)
      | .failed _ => [] := by
    funext u
    cases hres : (outcome u).result with
    | response elements => simp [perURL, processElements, hres]
    | failed err => simp [perURL, hres]
  rw [hfun]

/-- Witness for claim C2 at the concrete XML-mode configuration. -/
theorem executeScrape_mode_processing_witness :
    crawlerC2.URLs.Nodup
    ∧ (executeScrape outcomeC2 true crawlerC2).ScrapedData
      = (crawlerC2.URLs.map (fun u =>
          match (outcomeC2 u).result with
          | .response elements =>
            if true then elements
            else elements.filterMap (fun t => (jqSelect t crawlerC2.jqSelector).toOption)
          | .failed _ => [])).join :=
  ⟨by decide, executeScrape_mode_processing outcomeC2 true crawlerC2 (by decide)⟩
